import Mathlib

/-
Shallow embedding of `src/lib/secrets.js` (class `Secrets`): the key parser
(`_parseSecrets` name stripping/splitting), the config tree builder (second
loop of `_parseSecrets`), the value decoder (`JSON.parse` with raw-string
fallback), the fetcher/retry logic of `getSecret`, the name composition of
`createSecret`, and the constructor's field initialisation.

JavaScript conventions modelled explicitly:
- `undefined` and `null` are modelled by `Option`/dedicated constructors;
  string coercion (`undefined + d = "undefined" + d`, `null + d = "null" + d`,
  array coercion `[a,b] + d = "a,b" + d`) is modelled by the `...ToStr`
  functions below.
- `String.prototype.replace(pat, '')` with a string pattern removes only the
  first occurrence: `jsReplaceFirst`.
- `String.prototype.split(d)` with a non-empty string separator: `jsSplit`
  (the constructor guarantees a truthy, hence non-empty, delimiter).
- Truthiness: `""`, `0`, `false`, `null`, `undefined` are falsy; every object
  (including `[]` and `{}`) is truthy.
- The class body is strict-mode code, so assigning a property to a primitive
  value (`cache[key] = v` where `cache` is a string/number/boolean) throws a
  TypeError; this is modelled by `Except JsErr`.
- A static getter (`static get MAX_RETRY_ATTEMPTS`) lives on the class, not
  on instances, so the instance read `this.MAX_RETRY_ATTEMPTS` in `getSecret`
  yields `undefined`; `n <= undefined` is `false` (NaN comparison).
-/

/-! ## Character-level string operations (JS builtins) -/

/-- JS `s.replace(pat, '')` on char lists: remove the first occurrence of
`pat` (no-op when `pat` does not occur). -/
def listRemoveFirst (pat : List Char) : List Char → List Char
  | [] => []
  | c :: rest =>
    if pat.isPrefixOf (c :: rest) then (c :: rest).drop pat.length
    else c :: listRemoveFirst pat rest

/-- Whether `pat` occurs somewhere in `s` as a contiguous substring. -/
def hasSub : List Char → List Char → Bool
  | [], pat => pat.isEmpty
  | c :: rest, pat => pat.isPrefixOf (c :: rest) || hasSub rest pat

/-- No occurrence of `pat` starts at a position `< n` in `s`. -/
def noOccBefore (pat s : List Char) (n : Nat) : Prop :=
  ∀ k, k < n → pat.isPrefixOf (s.drop k) = false

instance (pat s : List Char) (n : Nat) : Decidable (noOccBefore pat s n) := by
  unfold noOccBefore; infer_instance

/-- JS `s.split(dl)` for a non-empty separator, fuel-structured so it reduces
in the kernel; `fuel` is an upper bound on the length of the remaining input.
(For empty `dl` JS splits into characters; the constructor never produces an
empty delimiter, and we return the input whole in that unused corner.) -/
def jsSplitFuel (dl : List Char) : Nat → List Char → List (List Char)
  | _, [] => [[]]
  | 0, s => [s]
  | fuel + 1, c :: rest =>
    if !dl.isEmpty && dl.isPrefixOf (c :: rest) then
      [] :: jsSplitFuel dl fuel ((c :: rest).drop dl.length)
    else
      match jsSplitFuel dl fuel rest with
      | [] => [[c]]
      | s₁ :: ss => (c :: s₁) :: ss

def jsSplitCh (dl s : List Char) : List (List Char) :=
  jsSplitFuel dl s.length s

/-! ## String-level wrappers -/

theorem strDataAppend (a b : String) : (a ++ b).data = a.data ++ b.data := rfl

/-- JS `s.replace(pat, '')` (string pattern: first occurrence only). -/
def jsReplaceFirst (s pat : String) : String :=
  ⟨listRemoveFirst pat.data s.data⟩

/-- JS `s.split(d)`. -/
def jsSplit (d s : String) : List String :=
  (jsSplitCh d.data s.data).map (fun l => ⟨l⟩)

/-! ## Constructor field initialisation (`constructor(options)`) -/

/-- The `options.namespace` input (and the stored `this.namespace` value):
a string or an array of strings. -/
inductive NsVal where
  | nstr : String → NsVal
  | narr : List String → NsVal
deriving DecidableEq

/-- The `this.env` field: a string, `null` (retrieve-all mode), or
`undefined` (neither `options.env` nor `process.env.NODE_ENV` set). -/
inductive EnvField where
  | estr : String → EnvField
  | enull : EnvField
  | eundefined : EnvField
deriving DecidableEq

/-- JS string coercion of the `this.env` field (as in `this.env + this.delimiter`). -/
def envFieldToStr : EnvField → String
  | .estr s => s
  | .enull => "null"
  | .eundefined => "undefined"

/-- JS string coercion of the `this.namespace` field (as in
`this.namespace + this.delimiter` and `${this.namespace}`): an absent field is
`undefined`, an array is joined with `","` by `Array.prototype.toString`. -/
def nsFieldToStr : Option NsVal → String
  | none => "undefined"
  | some (.nstr s) => s
  | some (.narr l) => String.intercalate "," l

/-- Truthiness of an optional string (`undefined` and `""` are falsy). -/
def jsTruthyOptStr : Option String → Bool
  | some s => s ≠ ""
  | none => false

/-- JS `a || b` where `b` is a plain string. -/
def jsOrStr (a : Option String) (b : String) : String :=
  match a with
  | some s => if s ≠ "" then s else b
  | none => b

/-- Truthiness of the `this.env` field (`null`/`undefined`/`""` falsy). -/
def envTruthy : EnvField → Bool
  | .estr s => s ≠ ""
  | .enull => false
  | .eundefined => false

/-- Truthiness of `options.namespace` (any array is truthy, `""` is falsy). -/
def nsTruthyInput : NsVal → Bool
  | .nstr s => s ≠ ""
  | .narr _ => true

/-- JS `.length` of `options.namespace`. -/
def nsLength : NsVal → Nat
  | .nstr s => s.length
  | .narr l => l.length

/-- Truthiness of the stored `this.namespace` field (`if (this.namespace)`). -/
def nsFieldTruthy : Option NsVal → Bool
  | none => false
  | some v => nsTruthyInput v

/-- Constructor env assignment: `this.env = options.env || process.env.NODE_ENV;
if (options.all) this.env = null`. -/
def mkEnv (optEnv nodeEnv : Option String) (all : Bool) : EnvField :=
  let e : EnvField :=
    match optEnv with
    | some s =>
      if s ≠ "" then .estr s
      else match nodeEnv with
        | some t => .estr t
        | none => .eundefined
    | none =>
      match nodeEnv with
      | some t => .estr t
      | none => .eundefined
  if all then .enull else e

/-- Constructor namespace assignment: `if (options.namespace &&
options.namespace.length) { if (Array.isArray(...))
this.namespace = options.namespace.join(this.delimiter); this.namespace =
options.namespace; }` — note the join result is immediately overwritten by the
unconditional assignment of the original value. -/
def mkNamespace (delim : String) (optNs : Option NsVal) : Option NsVal :=
  match optNs with
  | none => none
  | some ns =>
    if nsTruthyInput ns && nsLength ns != 0 then
      let _joined : Option NsVal :=
        match ns with
        | .narr l => some (.nstr (String.intercalate delim l))
        | _ => none
      some ns
    else none

/-- Constructor options (`options.namespace` is spelled `nspace`: `namespace`
is a Lean keyword). -/
structure SecretsOptions where
  region : Option String
  delimiter : Option String
  env : Option String
  nspace : Option NsVal
  all : Bool

/-- The fields of a `Secrets` instance set by the constructor (the AWS client
itself is an external collaborator and not modelled). -/
structure SecretsInst where
  delimiter : String
  env : EnvField
  region : String
  nsField : Option NsVal
  retryAttempts : Nat

/-- The constructor; `nodeEnv` and `awsRegion` stand for `process.env.NODE_ENV`
and `process.env.AWS_REGION`. -/
def mkSecrets (options : SecretsOptions) (nodeEnv awsRegion : Option String) : SecretsInst :=
  { delimiter := jsOrStr options.delimiter "/"
    env := mkEnv options.env nodeEnv options.all
    region := jsOrStr options.region (jsOrStr awsRegion "us-west-2")
    nsField := mkNamespace (jsOrStr options.delimiter "/") options.nspace
    retryAttempts := 0 }

/-! ## Key parser: the name stripping of `_parseSecrets` -/

/-- The namespace removal step `name.replace(this.namespace + this.delimiter, '')`. -/
def nsStrip (nsF : Option NsVal) (delim name : String) : String :=
  jsReplaceFirst name (nsFieldToStr nsF ++ delim)

/-- The environment removal step `.replace(this.env + this.delimiter, '')`. -/
def envStrip (envF : EnvField) (delim name : String) : String :=
  jsReplaceFirst name (envFieldToStr envF ++ delim)

/-- The full name transformation of the first loop of `_parseSecrets`. -/
def stripName (nsF : Option NsVal) (envF : EnvField) (delim name : String) : String :=
  envStrip envF delim (nsStrip nsF delim name)

/-! ## JS values and the config tree builder (second loop of `_parseSecrets`)

A JS object is modelled as an insertion-ordered association list
(`List (String × JsVal)`); property update keeps the original position,
matching `for...in` enumeration order for non-integer-like string keys
(integer-like keys, which JS enumerates first, do not occur in the claims).
A JSON array behaves in the tree walk exactly like a (truthy, extensible)
object, so values produced by the external `JSON.parse` are modelled with
objects as the only compound constructor. -/

inductive JsVal where
  | vstr : String → JsVal
  | vnum : Int → JsVal
  | vbool : Bool → JsVal
  | vnull : JsVal
  | obj : List (String × JsVal) → JsVal

abbrev JsObj := List (String × JsVal)

/-- JS property read (first matching key). -/
def objGet : JsObj → String → Option JsVal
  | [], _ => none
  | (k, v) :: rest, key => if k = key then some v else objGet rest key

/-- JS property write: update in place (keeping enumeration position) or
append a new key. -/
def objSet : JsObj → String → JsVal → JsObj
  | [], key, v => [(key, v)]
  | (k, w) :: rest, key, v =>
    if k = key then (key, v) :: rest else (k, w) :: objSet rest key v

/-- JS truthiness of a value (`""`, `0`, `false`, `null` falsy; objects truthy). -/
def truthy : JsVal → Bool
  | .vstr s => s ≠ ""
  | .vnum n => n ≠ 0
  | .vbool b => b
  | .vnull => false
  | .obj _ => true

def JsVal.isObj : JsVal → Bool
  | .obj _ => true
  | _ => false

/-- The only runtime error of the tree builder: strict-mode property
assignment on a primitive value. -/
inductive JsErr where
  | typeError : JsErr
deriving DecidableEq

/-- The `while (parts.length) { part = parts.shift(); cache = cache[part] =
cache[part] || {}; } cache[key] = config[item];` walk: create-if-absent (or
if-falsy) intermediate nodes, final assignment at `key`. Walking into a
truthy primitive makes the next assignment throw a strict-mode TypeError. -/
def setPath : JsObj → List String → String → JsVal → Except JsErr JsObj
  | o, [], key, v => .ok (objSet o key v)
  | o, part :: rest, key, v =>
    let next : JsVal :=
      match objGet o part with
      | some x => if truthy x then x else .obj []
      | none => .obj []
    match next with
    | .obj inner =>
      match setPath inner rest key v with
      | .ok inner₂ => .ok (objSet o part (.obj inner₂))
      | .error e => .error e
    | _ => .error .typeError

/-- One iteration of the second loop, for an already-split path:
`key = parts.pop()` takes the last segment, the rest are walked. -/
def insertPath (o : JsObj) (path : List String) (v : JsVal) : Except JsErr JsObj :=
  setPath o path.dropLast (path.getLastD "") v

/-- Fold of the second loop over `(path segments, value)` pairs. -/
def buildPairs : List (List String × JsVal) → JsObj → Except JsErr JsObj
  | [], o => .ok o
  | (p, v) :: rest, o =>
    match insertPath o p v with
    | .ok o₂ => buildPairs rest o₂
    | .error e => .error e

/-- The config tree built from `(path segments, value)` pairs, starting from
the empty object `res = {}`. -/
def buildTree (pairs : List (List String × JsVal)) : Except JsErr JsObj :=
  buildPairs pairs []

/-! ## Value decoding and the full `_parseSecrets` -/

/-- Value decoding `try { config[name] = JSON.parse(secret.SecretString); } catch (err)
{ config[name] = secret.SecretString; }` — `JSON.parse` is an external
builtin, modelled as a parameter returning `some` decoded value or `none`
(a thrown SyntaxError). -/
def decodeValue (jsonParse : String → Option JsVal) (s : String) : JsVal :=
  match jsonParse s with
  | some v => v
  | none => .vstr s

/-- A secret record as consumed by `_parseSecrets` (and produced by the
store). -/
structure SecretRecord where
  Name : String
  SecretString : String
deriving DecidableEq

/-- The first loop of `_parseSecrets`: `config[name] = decoded value`,
accumulating into a JS object (duplicate stripped names collapse,
last record wins). -/
def buildConfig (jsonParse : String → Option JsVal) (nsF : Option NsVal)
    (envF : EnvField) (delim : String) : JsObj → List SecretRecord → JsObj
  | acc, [] => acc
  | acc, r :: rest =>
    buildConfig jsonParse nsF envF delim
      (objSet acc (stripName nsF envF delim r.Name)
        (decodeValue jsonParse r.SecretString)) rest

/-- The whole `_parseSecrets(list)`: build `config`, then fold the tree builder over its
entries (`for (let item in config)`), splitting each stored name on the
delimiter. -/
def parseSecrets (jsonParse : String → Option JsVal) (nsF : Option NsVal)
    (envF : EnvField) (delim : String) (list : List SecretRecord) :
    Except JsErr JsObj :=
  buildPairs
    ((buildConfig jsonParse nsF envF delim [] list).map
      (fun kv => (jsSplit delim kv.1, kv.2)))
    []

/-- Read a value back at a path of keys (auxiliary, for stating claims). -/
def getPath : JsObj → List String → Option JsVal
  | _, [] => none
  | o, [k] => objGet o k
  | o, k :: rest =>
    match objGet o k with
    | some (.obj o₂) => getPath o₂ rest
    | _ => none

/-! ## `createSecret` name composition (the Writer) -/

/-- Array name joining `if (Array.isArray(options.name)) options.name =
options.name.join(this.delimiter)`. -/
def joinName (delim : String) : NsVal → String
  | .nstr s => s
  | .narr l => String.intercalate delim l

/-- The name composition of `createSecret`: join an array name with the
delimiter, then prepend `env + delimiter` if the env field is truthy, then
prepend `namespace + delimiter` if the namespace field is truthy (template
literals coerce the fields exactly like the parser's `+`). -/
def composeName (delim : String) (nsF : Option NsVal) (envF : EnvField)
    (name : NsVal) : String :=
  let n₁ := joinName delim name
  let n₂ := if envTruthy envF then envFieldToStr envF ++ delim ++ n₁ else n₁
  if nsFieldTruthy nsF then nsFieldToStr nsF ++ delim ++ n₂ else n₂

/-- Write-then-read round trip at the name level: compose the full secret
name as `createSecret` does, then strip and split it as `_parseSecrets` does. -/
def roundTrip (delim : String) (nsF : Option NsVal) (envF : EnvField)
    (segs : List String) : List String :=
  jsSplit delim (stripName nsF envF delim (composeName delim nsF envF (.narr segs)))

/-! ## `getSecret`: request parameters, retry policy -/

/-- The error value thrown by the store client; `getSecret` inspects only
`err.errorMessage`. -/
structure FetchErr where
  errorMessage : Option String
deriving DecidableEq

/-- One response of the external store to a `GetSecretValueCommand` send. -/
inductive StoreResp where
  | ok : SecretRecord → StoreResp
  | err : FetchErr → StoreResp
deriving DecidableEq

/-- What `getSecret` resolves with: `secret.SecretString` by default, the
whole raw record when `options.raw` is truthy. -/
inductive FetchResult where
  | secretString : String → FetchResult
  | rawRecord : SecretRecord → FetchResult
deriving DecidableEq

/-- The options object of `getSecret`. -/
structure GetOptions where
  id : Option String
  version : Option String
  stage : Option String
  raw : Bool

/-- The request parameters built for `GetSecretValueCommand`. -/
structure GetParams where
  SecretId : Option String
  VersionId : Option String
  VersionStage : Option String
deriving DecidableEq

/-- Request parameter selection: `params = {SecretId}; if (options.version) params.VersionId = ...;
else if (options.stage) params.VersionStage = ...;`. -/
def buildGetParams (o : GetOptions) : GetParams :=
  let p : GetParams := { SecretId := o.id, VersionId := none, VersionStage := none }
  if jsTruthyOptStr o.version then { p with VersionId := o.version }
  else if jsTruthyOptStr o.stage then { p with VersionStage := o.stage }
  else p

/-- The static getter `Secrets.MAX_RETRY_ATTEMPTS` on the class. -/
def secretsStaticMaxRetry : Nat := 3

/-- The value `getSecret` actually reads: `this.MAX_RETRY_ATTEMPTS` looks the
static getter up on the instance and its prototype chain, where it does not
exist, so the read yields `undefined`. -/
def instanceMaxRetryRead : Option Nat := none

/-- JS `a <= b` where `b` may be `undefined`: `undefined` converts to NaN and
every comparison with NaN is false. -/
def jsLeOpt (a : Nat) : Option Nat → Bool
  | some b => a ≤ b
  | none => false

/-- The retry condition of the `catch` block:
`err.errorMessage && err.errorMessage === "Rate exceeded" &&
this.retryAttempts <= <the MAX_RETRY_ATTEMPTS read>`. -/
def retryCond (e : FetchErr) (attempts : Nat) (maxRead : Option Nat) : Bool :=
  jsTruthyOptStr e.errorMessage && (e.errorMessage == some "Rate exceeded")
    && jsLeOpt attempts maxRead

/-- The recursion of `getSecret`, parametric in the `MAX_RETRY_ATTEMPTS` read:
`resps` is the stream of store responses (one per `send`), `attempts` is
`this.retryAttempts` on entry; the result pairs the final counter value with
the settled promise. An exhausted stream resolves to a placeholder error
(theorems always supply enough responses to keep it unreachable). -/
def getSecretGo (maxRead : Option Nat) (raw : Bool) :
    List StoreResp → Nat → Nat × Except FetchErr FetchResult
  | [], attempts => (attempts, .error ⟨some "store stream exhausted"⟩)
  | resp :: rest, attempts =>
    match resp with
    | .ok secret =>
      (attempts, .ok (if raw then .rawRecord secret else .secretString secret.SecretString))
    | .err e =>
      if retryCond e attempts maxRead then
        getSecretGo maxRead raw rest (attempts + 1)
      else
        (attempts, .error e)

/-- Run `getSecret` as the instance runs it: the `MAX_RETRY_ATTEMPTS` read is
`undefined`. -/
def getSecretRun (raw : Bool) (resps : List StoreResp) (attempts : Nat) :
    Nat × Except FetchErr FetchResult :=
  getSecretGo instanceMaxRetryRead raw resps attempts

/-- A sequence of independent top-level `getSecret` calls on one instance,
threading the instance's `retryAttempts` field. -/
def runCalls (maxRead : Option Nat) : List (Bool × List StoreResp) → Nat → Nat
  | [], a => a
  | (raw, resps) :: rest, a => runCalls maxRead rest (getSecretGo maxRead raw resps a).1

/-- A concrete stand-in for the external `JSON.parse` used to instantiate
universally quantified statements: accepts exactly the document `"42"`. -/
def toyJsonDecode : String → Option JsVal :=
  fun s => if s = "42" then some (.vnum 42) else none

/-! ## Lemmas about first-occurrence removal -/

theorem listRemoveFirst_of_isPre (pat s : List Char) (h : pat.isPrefixOf s = true) :
    listRemoveFirst pat s = s.drop pat.length := by
  cases s with
  | nil =>
    have : pat = [] := by
      cases pat with
      | nil => rfl
      | cons c r => simp [List.isPrefixOf] at h
    subst this
    rfl
  | cons c rest =>
    unfold listRemoveFirst
    rw [h]
    simp

theorem listRemoveFirst_head (pat b : List Char) :
    listRemoveFirst pat (pat ++ b) = b := by
  have hpre : pat.isPrefixOf (pat ++ b) = true :=
    List.isPrefixOf_iff_prefix.mpr ⟨b, rfl⟩
  rw [listRemoveFirst_of_isPre pat _ hpre, List.drop_left]

theorem listRemoveFirst_at (pat : List Char) :
    ∀ (a b : List Char), noOccBefore pat (a ++ (pat ++ b)) a.length →
      listRemoveFirst pat (a ++ (pat ++ b)) = a ++ b := by
  intro a
  induction a with
  | nil =>
    intro b _
    simpa using listRemoveFirst_head pat b
  | cons c a' ih =>
    intro b h
    have h0 : pat.isPrefixOf ((c :: a' ++ (pat ++ b)).drop 0) = false := h 0 (by simp)
    simp only [List.drop_zero] at h0
    unfold listRemoveFirst
    simp only [List.cons_append] at h0 ⊢
    rw [h0]
    simp only [Bool.false_eq_true, if_false]
    have ih' := ih b (fun k hk => by
      have := h (k + 1) (by simpa using Nat.succ_lt_succ hk)
      simpa using this)
    rw [ih']

theorem listRemoveFirst_noSub (pat : List Char) :
    ∀ s : List Char, hasSub s pat = false → listRemoveFirst pat s = s := by
  intro s
  induction s with
  | nil => intro _; rfl
  | cons c rest ih =>
    intro h
    unfold hasSub at h
    rcases Bool.or_eq_false_iff.mp h with ⟨h1, h2⟩
    unfold listRemoveFirst
    rw [h1]
    simp only [Bool.false_eq_true, if_false]
    rw [ih h2]

/-- String-level corollary: removing `pat` from `pat ++ rest` yields `rest`. -/
theorem jsReplaceFirst_head (pat rest : String) :
    jsReplaceFirst (pat ++ rest) pat = rest := by
  unfold jsReplaceFirst
  rw [strDataAppend, listRemoveFirst_head]

theorem jsReplaceFirst_noSub (s pat : String) (h : hasSub s.data pat.data = false) :
    jsReplaceFirst s pat = s := by
  unfold jsReplaceFirst
  rw [listRemoveFirst_noSub pat.data s.data h]


/-- Removing a mid-string occurrence of `pat` (with no occurrence starting
earlier) pastes the surrounding parts together. -/
theorem jsReplaceFirst_mid (pat pre post : String)
    (h : noOccBefore pat.data (pre.data ++ (pat.data ++ post.data)) pre.data.length) :
    jsReplaceFirst (pre ++ pat ++ post) pat = pre ++ post := by
  unfold jsReplaceFirst
  have hdata : (pre ++ pat ++ post).data = pre.data ++ (pat.data ++ post.data) := by
    rw [strDataAppend, strDataAppend, List.append_assoc]
  rw [hdata, listRemoveFirst_at pat.data pre.data post.data h]
  rfl

theorem jsSplitFuel_ne_nil (dl : List Char) (fuel : Nat) (s : List Char) :
    jsSplitFuel dl fuel s ≠ [] := by
  match fuel, s with
  | _, [] => simp [jsSplitFuel]
  | 0, c :: rest => simp [jsSplitFuel]
  | fuel + 1, c :: rest =>
    unfold jsSplitFuel
    by_cases hc : (!dl.isEmpty && dl.isPrefixOf (c :: rest)) = true
    · simp [hc]
    · rw [if_neg hc]
      cases hrec : jsSplitFuel dl fuel rest <;> simp

theorem jsSplit_ne_nil (d s : String) : jsSplit d s ≠ [] := by
  unfold jsSplit jsSplitCh
  intro hmap
  exact jsSplitFuel_ne_nil d.data s.data.length s.data (List.map_eq_nil_iff.mp hmap)

theorem dropLast_append_getLastD {α : Type} (l : List α) (d : α) (h : l ≠ []) :
    l.dropLast ++ [l.getLastD d] = l := by
  induction l generalizing d with
  | nil => exact absurd rfl h
  | cons x t ih =>
    cases t with
    | nil => simp [List.getLastD]
    | cons y u =>
      have h2 := ih x (List.cons_ne_nil y u)
      simp only [List.getLastD_cons] at h2
      simp only [List.dropLast_cons₂, List.getLastD_cons, List.cons_append]
      rw [h2]

/-- Inserting along a path into the empty object always succeeds and stores
the value at that path. -/
theorem setPath_nil (parts : List String) (key : String) (v : JsVal) :
    ∃ t, setPath [] parts key v = .ok t ∧ getPath t (parts ++ [key]) = some v := by
  induction parts generalizing key v with
  | nil => exact ⟨[(key, v)], rfl, by simp [getPath, objGet]⟩
  | cons p rest ih =>
    obtain ⟨t, ht, hg⟩ := ih key v
    refine ⟨[(p, .obj t)], ?_, ?_⟩
    · simp [setPath, objGet, ht, objSet]
    · cases rest with
      | nil => simpa [getPath, objGet] using hg
      | cons r u => simpa [getPath, objGet] using hg

/-- One `getSecret` activation never decreases the attempt counter. -/
theorem getSecretGo_le (maxRead : Option Nat) (raw : Bool) (resps : List StoreResp)
    (a : Nat) : a ≤ (getSecretGo maxRead raw resps a).1 := by
  induction resps generalizing a with
  | nil => exact Nat.le_refl a
  | cons resp rest ih =>
    cases resp with
    | ok s => simp [getSecretGo]
    | err e =>
      by_cases hc : retryCond e a maxRead = true
      · simp only [getSecretGo, hc, if_true]
        exact Nat.le_trans (Nat.le_succ a) (ih (a + 1))
      · simp [getSecretGo, hc]

/-! ## Claim theorems -/

/-- C1 (code bug in the source): the claim (and the spec) say a Fetcher whose
counter starts at zero retries "Rate exceeded" errors, so that three such
errors followed by a success resolve with the success. In the code the retry
branch is dead: `this.MAX_RETRY_ATTEMPTS` reads the static getter through the
instance, which yields `undefined`, and `0 <= undefined` is `false`, so the
very first rate-limit error rejects immediately (first conjunct; the second
and third conjuncts record the `undefined` comparison and the value of the
static constant). With the intended read of the static constant (fourth
conjunct) the same response stream resolves with the success after three
retries, as the claim describes. -/
theorem getSecret_rate_limit_retry_dead :
    getSecretRun false
      [.err ⟨some "Rate exceeded"⟩, .err ⟨some "Rate exceeded"⟩,
        .err ⟨some "Rate exceeded"⟩, .ok ⟨"id", "value"⟩] 0
      = (0, .error ⟨some "Rate exceeded"⟩)
    ∧ jsLeOpt 0 instanceMaxRetryRead = false
    ∧ secretsStaticMaxRetry = 3
    ∧ getSecretGo (some secretsStaticMaxRetry) false
      [.err ⟨some "Rate exceeded"⟩, .err ⟨some "Rate exceeded"⟩,
        .err ⟨some "Rate exceeded"⟩, .ok ⟨"id", "value"⟩] 0
      = (3, .ok (.secretString "value")) :=
  ⟨rfl, rfl, rfl, rfl⟩

/-- C2 counterexample: an instance constructed with the `all` option set has
a `null` env field, and parsing a record named "null/db/pass" still removes
the literal substring "null/" (JS string coercion of `null`), so the record
name is not split into segments unchanged. -/
theorem allMode_strips_null_literal :
    (mkSecrets ⟨none, none, some "prod", some (.nstr "acme"), true⟩ none none).env
      = EnvField.enull
    ∧ (mkSecrets ⟨none, none, some "prod", some (.nstr "acme"), true⟩ none none).nsField
      = some (.nstr "acme")
    ∧ stripName (some (.nstr "acme")) .enull "/" "null/db/pass" = "db/pass"
    ∧ jsSplit "/" "null/db/pass" = ["null", "db", "pass"]
    ∧ jsSplit "/" (stripName (some (.nstr "acme")) .enull "/" "null/db/pass")
      = ["db", "pass"] :=
  ⟨by decide, by decide, by decide, by decide, by decide⟩

/-- C2 (amended): in retrieve-all mode the env field is `null` and the
environment step of the parser strips nothing that depends on the configured
environment string; instead it removes the first occurrence of the literal
"null" + delimiter, so every record name not containing that literal is left
unchanged by the environment step. -/
theorem allMode_env_step_noop_without_null_literal :
    (∀ (optEnv nodeEnv : Option String), mkEnv optEnv nodeEnv true = EnvField.enull)
    ∧ (∀ (delim name : String), hasSub name.data ("null" ++ delim).data = false →
        envStrip .enull delim name = name) := by
  constructor
  · intro optEnv nodeEnv; rfl
  · intro delim name h
    unfold envStrip
    exact jsReplaceFirst_noSub name ("null" ++ delim) h

/-- C2 witness: the amended statement at a concrete instance. -/
theorem allMode_env_step_noop_witness :
    mkEnv (some "prod") none true = EnvField.enull
    ∧ envStrip .enull "/" "prod/db" = "prod/db" :=
  ⟨allMode_env_step_noop_without_null_literal.1 (some "prod") none,
    allMode_env_step_noop_without_null_literal.2 "/" "prod/db" (by decide)⟩

/-- C3 counterexample: with a truthy scalar at the strict-prefix path
processed first, the builder does not overwrite at the shared node — it
walks into the primitive and the strict-mode property assignment throws a
TypeError, so no tree (and no last-processed value) is produced at all. -/
theorem strict_prefix_overwrite_throws :
    buildTree [(["a"], .vstr "x"), (["a", "b"], .vstr "y")] = .error .typeError := rfl

/-- C3 (amended): when the strict-prefix path is processed last, the shared
node holds its value (last processed wins, for arbitrary values); when the
strict-prefix path is processed first with a truthy non-object value, the
builder throws a TypeError instead of overwriting. -/
theorem strict_prefix_last_wins_or_throws :
    (∀ v₁ v₂ : JsVal, buildTree [(["a", "b"], v₂), (["a"], v₁)] = .ok [("a", v₁)])
    ∧ (∀ v₁ v₂ : JsVal, truthy v₁ = true → v₁.isObj = false →
        buildTree [(["a"], v₁), (["a", "b"], v₂)] = .error .typeError) := by
  constructor
  · intro v₁ v₂; rfl
  · intro v₁ v₂ ht hobj
    cases v₁ with
    | obj o => simp [JsVal.isObj] at hobj
    | vnull => simp [truthy] at ht
    | vstr s => simp [buildTree, buildPairs, insertPath, setPath, objGet, objSet, ht]
    | vnum n => simp [buildTree, buildPairs, insertPath, setPath, objGet, objSet, ht]
    | vbool b => simp [buildTree, buildPairs, insertPath, setPath, objGet, objSet, ht]

/-- C3 witness: both halves of the amended statement at concrete values. -/
theorem strict_prefix_witness :
    buildTree [(["a"], .vstr "x"), (["a", "b"], .vnull)] = .error .typeError
    ∧ buildTree [(["a", "b"], .vnull), (["a"], .vstr "x")] = .ok [("a", .vstr "x")] :=
  ⟨strict_prefix_last_wins_or_throws.2 (.vstr "x") .vnull (by decide) rfl,
    strict_prefix_last_wins_or_throws.1 (.vstr "x") .vnull⟩

/-- C4 counterexample: a name whose single segment contains the delimiter
("a/b") composes and strips back fine, but splitting yields two segments, so
the round trip is not the original path for every name/namespace/env/delimiter
combination. -/
theorem roundTrip_delimiter_in_segment :
    roundTrip "/" (some (.nstr "ns")) (.estr "prod") ["a/b"] = ["a", "b"]
    ∧ (["a", "b"] == ["a/b"]) = false :=
  ⟨by decide, by decide⟩

/-- C4 (amended): for a truthy configured namespace and environment (so the
Writer prepends exactly the prefixes the parser removes, at position zero),
and for names whose segments survive delimiter-join-then-split, composing as
`createSecret` does and then stripping and splitting as `_parseSecrets` does
returns the original segments. -/
theorem roundTrip_recovers_segments (delim : String) (nsF : Option NsVal)
    (envF : EnvField) (segs : List String)
    (hns : nsFieldTruthy nsF = true) (henv : envTruthy envF = true)
    (hsplit : jsSplit delim (String.intercalate delim segs) = segs) :
    roundTrip delim nsF envF segs = segs := by
  unfold roundTrip stripName nsStrip envStrip composeName joinName
  simp only [hns, henv, if_true]
  rw [jsReplaceFirst_head, jsReplaceFirst_head, hsplit]

/-- C4 witness: the spec's own concrete scenario (namespace "acme",
env "prod", delimiter "/", path db/password). -/
theorem roundTrip_witness :
    roundTrip "/" (some (.nstr "acme")) (.estr "prod") ["db", "password"]
      = ["db", "password"] :=
  roundTrip_recovers_segments "/" (some (.nstr "acme")) (.estr "prod")
    ["db", "password"] (by decide) (by decide) (by decide)

/-- C5: the stored value is the JSON-decoded document when `JSON.parse`
succeeds and the raw string when it throws (first two conjuncts), and the
tree-building step never surfaces a decode failure as an error: for any
single record it returns a tree holding the decoded-or-raw value at the
parsed path (third conjunct). -/
theorem decode_json_or_raw :
    (∀ (jsonParse : String → Option JsVal) (s : String) (v : JsVal),
        jsonParse s = some v → decodeValue jsonParse s = v)
    ∧ (∀ (jsonParse : String → Option JsVal) (s : String),
        jsonParse s = none → decodeValue jsonParse s = .vstr s)
    ∧ (∀ (jsonParse : String → Option JsVal) (nsF : Option NsVal) (envF : EnvField)
        (delim : String) (r : SecretRecord),
        ∃ t, parseSecrets jsonParse nsF envF delim [r] = .ok t
          ∧ getPath t (jsSplit delim (stripName nsF envF delim r.Name))
            = some (decodeValue jsonParse r.SecretString)) := by
  refine ⟨?_, ?_, ?_⟩
  · intro p s v h; unfold decodeValue; rw [h]
  · intro p s h; unfold decodeValue; rw [h]
  · intro p nsF envF delim r
    obtain ⟨t, ht, hg⟩ := setPath_nil
      (jsSplit delim (stripName nsF envF delim r.Name)).dropLast
      ((jsSplit delim (stripName nsF envF delim r.Name)).getLastD "")
      (decodeValue p r.SecretString)
    refine ⟨t, ?_, ?_⟩
    · have ht2 := ht
      simp only [List.getLastD_eq_getLast?] at ht2
      simp [parseSecrets, buildConfig, objSet, buildPairs, insertPath, ht2]
    · rw [← dropLast_append_getLastD (jsSplit delim (stripName nsF envF delim r.Name)) ""
        (jsSplit_ne_nil delim (stripName nsF envF delim r.Name))]
      exact hg

/-- C5 witness: a concrete decoder accepting exactly "42", a decodable and a
non-decodable value, and a concrete record parsed into a tree. -/
theorem decode_json_or_raw_witness :
    decodeValue toyJsonDecode "42" = JsVal.vnum 42
    ∧ decodeValue toyJsonDecode "xyz" = JsVal.vstr "xyz"
    ∧ ∃ t, parseSecrets toyJsonDecode none .enull "/" [⟨"a/b", "42"⟩] = .ok t
        ∧ getPath t (jsSplit "/" (stripName none .enull "/" "a/b"))
          = some (decodeValue toyJsonDecode "42") :=
  ⟨decode_json_or_raw.1 toyJsonDecode "42" (JsVal.vnum 42) rfl,
    decode_json_or_raw.2.1 toyJsonDecode "xyz" rfl,
    decode_json_or_raw.2.2 toyJsonDecode none .enull "/" ⟨"a/b", "42"⟩⟩

/-- C6: for paths a.b and a.c with arbitrary leaf values, both processing
orders produce a single shared node "a" carrying both leaves (the two object
layouts differ only in insertion order). -/
theorem sibling_paths_merge (v₁ v₂ : JsVal) :
    buildTree [(["a", "b"], v₁), (["a", "c"], v₂)]
      = .ok [("a", .obj [("b", v₁), ("c", v₂)])]
    ∧ buildTree [(["a", "c"], v₂), (["a", "b"], v₁)]
      = .ok [("a", .obj [("c", v₂), ("b", v₁)])] :=
  ⟨rfl, rfl⟩

/-- C7: the request carries at most one version qualifier: a truthy
`options.version` is sent as VersionId and any stage is ignored; a truthy
`options.stage` is sent as VersionStage only when the version is not truthy;
`SecretId` is always the id. -/
theorem version_takes_precedence (o : GetOptions) :
    (buildGetParams o).SecretId = o.id
    ∧ (buildGetParams o).VersionId
      = (if jsTruthyOptStr o.version then o.version else none)
    ∧ (buildGetParams o).VersionStage
      = (if jsTruthyOptStr o.version then none
          else if jsTruthyOptStr o.stage then o.stage else none)
    ∧ ((buildGetParams o).VersionId.isSome && (buildGetParams o).VersionStage.isSome)
      = false := by
  unfold buildGetParams
  cases h1 : jsTruthyOptStr o.version <;> cases h2 : jsTruthyOptStr o.stage <;>
    simp [h1, h2]

/-- C8: the constructor initialises `retryAttempts` to zero, one `getSecret`
activation never decreases it, and threading it through any sequence of
independent top-level calls never decreases it either (so only constructing
a new instance resets it). -/
theorem retry_counter_starts_zero_never_decreases :
    (∀ (options : SecretsOptions) (nodeEnv awsRegion : Option String),
        (mkSecrets options nodeEnv awsRegion).retryAttempts = 0)
    ∧ (∀ (maxRead : Option Nat) (raw : Bool) (resps : List StoreResp) (a : Nat),
        a ≤ (getSecretGo maxRead raw resps a).1)
    ∧ (∀ (maxRead : Option Nat) (calls : List (Bool × List StoreResp)) (a : Nat),
        a ≤ runCalls maxRead calls a) := by
  refine ⟨fun _ _ _ => rfl, getSecretGo_le, ?_⟩
  intro maxRead calls
  induction calls with
  | nil => intro a; exact Nat.le_refl a
  | cons call rest ih =>
    intro a
    obtain ⟨raw, resps⟩ := call
    exact Nat.le_trans (getSecretGo_le maxRead raw resps a)
      (ih ((getSecretGo maxRead raw resps a).1))

/-- C9: a non-empty array namespace is stored as the array itself (the
delimiter-join computed in the constructor is discarded by the unconditional
reassignment), so `createSecret` prefixes the comma-joined coercion of the
array rather than the delimiter-joined segments. -/
theorem array_namespace_comma_joined (delim : String) (l : List String)
    (envF : EnvField) (nm : String) (hl : l ≠ []) :
    mkNamespace delim (some (.narr l)) = some (.narr l)
    ∧ composeName delim (mkNamespace delim (some (.narr l))) envF (.nstr nm)
      = String.intercalate "," l ++ delim
        ++ (if envTruthy envF then envFieldToStr envF ++ delim ++ nm else nm) := by
  have hmk : mkNamespace delim (some (.narr l)) = some (.narr l) := by
    have hlen : l.length ≠ 0 := fun h => hl (List.length_eq_zero.mp h)
    simp [mkNamespace, nsTruthyInput, nsLength, hlen]
  refine ⟨hmk, ?_⟩
  rw [hmk]
  simp [composeName, nsFieldTruthy, nsTruthyInput, nsFieldToStr, joinName]

/-- C9 witness: namespace array x,y with delimiter ":" gives the prefix
"x,y:" (not "x:y:"). -/
theorem array_namespace_comma_joined_witness :
    mkNamespace ":" (some (.narr ["x", "y"])) = some (.narr ["x", "y"])
    ∧ composeName ":" (mkNamespace ":" (some (.narr ["x", "y"]))) .eundefined (.nstr "s")
      = "x,y:s" := by
  have h := array_namespace_comma_joined ":" ["x", "y"] .eundefined "s" (by decide)
  refine ⟨h.1, ?_⟩
  rw [h.2]
  decide

/-- C10: an absent namespace coerces to "undefined" and a null env to "null"
(first two conjuncts), and the corresponding replacement steps remove the
first occurrence of "undefined" + delimiter, respectively "null" + delimiter,
from a record name before splitting (last two conjuncts). -/
theorem undefined_null_literal_removed :
    nsFieldToStr none = "undefined"
    ∧ envFieldToStr EnvField.enull = "null"
    ∧ (∀ (delim pre post : String),
        noOccBefore ("undefined" ++ delim).data
          (pre.data ++ (("undefined" ++ delim).data ++ post.data)) pre.data.length →
        nsStrip none delim (pre ++ ("undefined" ++ delim) ++ post) = pre ++ post)
    ∧ (∀ (delim pre post : String),
        noOccBefore ("null" ++ delim).data
          (pre.data ++ (("null" ++ delim).data ++ post.data)) pre.data.length →
        envStrip .enull delim (pre ++ ("null" ++ delim) ++ post) = pre ++ post) := by
  refine ⟨rfl, rfl, ?_, ?_⟩
  · intro delim pre post h
    unfold nsStrip
    exact jsReplaceFirst_mid ("undefined" ++ delim) pre post h
  · intro delim pre post h
    unfold envStrip
    exact jsReplaceFirst_mid ("null" ++ delim) pre post h

/-- C10 witness: concrete names containing the literal substrings. -/
theorem undefined_null_literal_removed_witness :
    nsStrip none "/" ("x/" ++ ("undefined" ++ "/") ++ "y") = "x/" ++ "y"
    ∧ envStrip .enull "/" ("a" ++ ("null" ++ "/") ++ "b") = "a" ++ "b" :=
  ⟨undefined_null_literal_removed.2.2.1 "/" "x/" "y" (by decide),
    undefined_null_literal_removed.2.2.2 "/" "a" "b" (by decide)⟩
